import Mathlib

/-!
Shallow embedding of `src/neurons/validator.py` (storage-subnet validator).

Modelling notes, traceable to the source:

* `MIN_N_CHUNKS = 1 << 10` (line 40).
* Allocation dictionaries (lines 139-158) become the `Alloc` structure; the
  two parallel lists `next_allocations` / `verified_allocations` become a
  list of pairs `(next, verified)`.
* The Python float expressions `int(n * 1.1)` (line 238) and
  `int(n * 0.9)` (lines 213, 247) are embedded as the exact natural-number
  truncations `n * 11 / 10` and `n * 9 / 10`.  For every value of `n`
  reachable by this program (and in fact every `n < 2^49`) the IEEE-754
  double computation agrees with the exact rational truncation: the doubles
  nearest to 1.1 and 0.9 exceed them by less than 9e-17, so the product
  `n * fl(1.1)` differs from `11n/10` by far less than the distance to the
  next integer boundary (at least 1/10 when `10 ∤ n`, and less than half an
  ulp when `10 ∣ n`), and Python `int()` truncates toward zero.
* The SHA-256 hex digest `hashlib.sha256(data.encode()).hexdigest()`
  (line 226) is an external pure function; the audit step takes it as a
  parameter `hashFn : String → String`.
* Per-provider external inputs per round — the outcome of the sqlite hash
  lookup (lines 186-199) and the miner response from `dendrite.query`
  (lines 204-208, `None` when the miner did not answer) — are modelled as
  the `ProvEnv` record.  The lookup has three outcomes, because
  `sqlite3.connect(alloc["path"])` at line 186 sits outside the `try`
  that begins at line 187: a connect-time failure raises
  `sqlite3.OperationalError` with no handler anywhere (`connectError`,
  uncaught), while any exception inside the `try` — missing row, missing
  table, corrupted db — is caught by the bare `except:` and turned into
  "log and continue" (`caughtError`).
* `random.randint(1, n_chunks)` (line 182) raises `ValueError` when
  `n_chunks = 0`; the chosen index itself only feeds the store lookup,
  which is already abstracted by `ProvEnv.store`.
* The main loop's exception dispatch (lines 297-305) has exactly two
  handlers: `except RuntimeError` (log, loop continues) and
  `except KeyboardInterrupt` (clean exit).  Any other exception propagates
  out of `main` and kills the process; `PyErr`/`exceptClauses` model this.
* `scores = torch.ones_like(metagraph.S)` (line 129) and
  `torch.nn.functional.normalize(scores, p=1.0, dim=0)` (line 274) are
  embedded over `ℚ`: torch's L1 normalize divides by
  `max (l1norm v) eps` with `eps = 1e-12`.
* Weight submission cadence (line 272): `(step + 1) % 1000 == 0`.
-/

/-- MIN_N_CHUNKS (validator.py line 40): `1 << 10` = 1024 chunks. -/
def MIN_N_CHUNKS : Nat := 1 <<< 10

/-- One allocation dictionary (validator.py lines 139-158). -/
structure Alloc where
  path : String
  n_chunks : Nat
  seed : String
  miner : String
  validator : String
  hash : Bool
  deriving DecidableEq

/-- Python exceptions relevant to the validator loop.  `operationalError`
is `sqlite3.OperationalError`, raised by `sqlite3.connect` at line 186
when the database is unreachable. -/
inductive PyErr where
  | runtimeError
  | keyboardInterrupt
  | valueError
  | operationalError
  deriving DecidableEq

/-- Log events emitted while auditing one provider. -/
inductive LogEvent where
  | storeError
  | noResponseReduce
  | matchIncrease
  | mismatchReduce
  deriving DecidableEq

/-- Outcome of the sqlite validation-hash lookup for one provider
(validator.py lines 186-199).  `sqlite3.connect(alloc["path"])` at
line 186 sits outside the `try` that begins at line 187, so a
connect-time failure (unreachable storage: missing parent directory,
permission denied, dead mount) raises `sqlite3.OperationalError` that no
handler catches: `connectError`.  An exception raised inside the `try`
(missing row, missing table, corrupted db) is caught by the bare
`except:` at line 195: `caughtError`.  Otherwise the expected hash is
`found`. -/
inductive StoreOutcome where
  | found (validationHash : String)
  | caughtError
  | connectError
  deriving DecidableEq

/-- External inputs consumed while auditing one provider:
`store` is the outcome of the sqlite validation-hash lookup
(lines 186-199), `resp` is the miner response returned by
`dendrite.query` (lines 204-208; `none` models `miner_data == None`). -/
structure ProvEnv where
  store : StoreOutcome
  resp : Option String
  deriving DecidableEq

/-- `int(n_chunks * 1.1)` (validator.py lines 238-240): the working
allocation after a successful proof.  Note the source applies no
`MIN_N_CHUNKS` clamp on this branch. -/
def matchNext (c : Nat) : Nat := c * 11 / 10

/-- `max(int(n_chunks * 0.9), MIN_N_CHUNKS)` (validator.py lines 213-215
and 247-249): the working allocation after a failed or absent proof. -/
def failNext (c : Nat) : Nat := max (c * 9 / 10) MIN_N_CHUNKS

/-- The Match branch (validator.py lines 232-243): first
`verified_allocations[i]["n_chunks"] = next_allocations[i]["n_chunks"]`,
then `next_allocations[i]["n_chunks"] = int(... * 1.1)`.  The pair is
`(next, verified)`. -/
def matchUpdate (na va : Alloc) : Alloc × Alloc :=
  ({ na with n_chunks := matchNext na.n_chunks },
   { va with n_chunks := na.n_chunks })

/-- The Mismatch / NoResponse branches (validator.py lines 210-219 and
244-253): first `next = max(int(next * 0.9), MIN_N_CHUNKS)`, then
`verified = min(next, verified)` where `next` is the updated value. -/
def failUpdate (na va : Alloc) : Alloc × Alloc :=
  ({ na with n_chunks := failNext na.n_chunks },
   { va with n_chunks := min (failNext na.n_chunks) va.n_chunks })

/-- Audit of a single provider (validator.py lines 175-256).  In order:
the self-validation skip (lines 177-178), the `random.randint(1,
n_chunks)` call which raises `ValueError` when `n_chunks = 0` (line 182),
`sqlite3.connect` whose failure is uncaught because it precedes the `try`
(line 186), the guarded lookup whose failure is caught and turns into
`continue` (lines 187-199), the miner query and the three verdict
branches.  `hashFn` stands for
`hashlib.sha256(·.encode()).hexdigest()`. -/
def auditStep (hashFn : String → String) (self : String) (env : ProvEnv)
    (p : Alloc × Alloc) : Except PyErr ((Alloc × Alloc) × List LogEvent) :=
  if p.1.miner = self then
    .ok (p, [])
  else if p.1.n_chunks = 0 then
    .error .valueError
  else
    match env.store with
    | .connectError => .error .operationalError
    | .caughtError => .ok (p, [.storeError])
    | .found validationHash =>
      match env.resp with
      | none => .ok (failUpdate p.1 p.2, [.noResponseReduce])
      | some data =>
        if hashFn data = validationHash then
          .ok (matchUpdate p.1 p.2, [.matchIncrease])
        else
          .ok (failUpdate p.1 p.2, [.mismatchReduce])

/-- One audit round: the `for i, alloc in enumerate(next_allocations)` loop
(validator.py lines 175-256).  Returns the allocation pairs as mutated so
far together with the first uncaught exception, if any: an exception
aborts the remainder of the loop, and in-place mutations made before it
persist. -/
def auditRound (hashFn : String → String) (self : String) :
    List ProvEnv → List (Alloc × Alloc) →
      List (Alloc × Alloc) × Option PyErr
  | _, [] => ([], none)
  | [], p :: ps => (p :: ps, none)
  | env :: envs, p :: ps =>
    match auditStep hashFn self env p with
    | .error e => (p :: ps, some e)
    | .ok (p1, _) =>
      let r := auditRound hashFn self envs ps
      (p1 :: r.1, r.2)

/-- `f"{db_root_path}/{wallet.name}/{wallet.hotkey}/DB-{hotkey}-{address}"`
(validator.py lines 136-138), with `os.path.expanduser` treated as the
identity (external path resolution). -/
def dbPath (dbRoot wname whotkey hotkey selfAddr : String) : String :=
  dbRoot ++ "/" ++ wname ++ "/" ++ whotkey ++ "/DB-" ++ hotkey ++ "-" ++ selfAddr

/-- Initial working ("next") allocation for one hotkey (validator.py
lines 139-148): `n_chunks` starts at `MIN_N_CHUNKS`. -/
def initNextAlloc (dbRoot wname whotkey selfAddr hotkey : String) : Alloc :=
  { path := dbPath dbRoot wname whotkey hotkey selfAddr
    n_chunks := MIN_N_CHUNKS
    seed := hotkey ++ selfAddr
    miner := hotkey
    validator := selfAddr
    hash := true }

/-- Initial floor ("verified") allocation for one hotkey (validator.py
lines 149-158): `n_chunks` starts at `0`. -/
def initVerifiedAlloc (dbRoot wname whotkey selfAddr hotkey : String) : Alloc :=
  { path := dbPath dbRoot wname whotkey hotkey selfAddr
    n_chunks := 0
    seed := hotkey ++ selfAddr
    miner := hotkey
    validator := selfAddr
    hash := true }

/-- The allocation invariant maintained by the controller, for a pair
`(next, verified)`: the floor never exceeds the working estimate, and the
working estimate never drops below `MIN_N_CHUNKS`. -/
def allocInv (p : Alloc × Alloc) : Prop :=
  p.2.n_chunks ≤ p.1.n_chunks ∧ MIN_N_CHUNKS ≤ p.1.n_chunks

/-- The `eps` of `torch.nn.functional.normalize`, `1e-12`. -/
def torchEps : ℚ := 1 / 10 ^ 12

/-- L1 norm of a score vector: sum of absolute values. -/
def l1norm (v : List ℚ) : ℚ := (v.map (fun x => |x|)).sum

/-- `torch.nn.functional.normalize(scores, p=1.0, dim=0)` (validator.py
line 274): divide each entry by `max (l1norm v) eps`. -/
def normalizeL1 (v : List ℚ) : List ℚ :=
  v.map (fun x => x / max (l1norm v) torchEps)

/-- `(step + 1) % 1000 == 0` (validator.py line 272): whether the weight
vector is submitted this epoch. -/
def submitsAt (step : Nat) : Bool := (step + 1) % 1000 == 0

/-- `scores = torch.ones_like(metagraph.S, dtype=torch.float32)`
(validator.py line 129) for a metagraph of `n` providers. -/
def initScores (n : Nat) : List ℚ := List.replicate n 1

/-- State threaded through the main `while True` loop: the step counter
(line 170), the score vector (line 129) and the allocation pairs. -/
structure LoopState where
  step : Nat
  scores : List ℚ
  allocs : List (Alloc × Alloc)
  deriving DecidableEq

/-- Outcome of one iteration of the main loop. -/
inductive LoopOutcome where
  | continueLoop (st : LoopState) (submitted : Option (List ℚ))
  | exitClean
  | crash (e : PyErr)
  deriving DecidableEq

/-- The exception dispatch at the bottom of the main loop (validator.py
lines 297-305): `except RuntimeError` logs and lets the `while` loop
continue, `except KeyboardInterrupt` calls `exit()`, and every other
exception has no handler so it propagates out of `main` and terminates
the process. -/
def exceptClauses (st : LoopState) (e : PyErr) : LoopOutcome :=
  match e with
  | .runtimeError => .continueLoop st none
  | .keyboardInterrupt => .exitClean
  | e => .crash e

/-- Per-epoch external input: the per-provider environments, and an
optional exception raised by one of the external calls in the loop body
(`allocate.generate`, `subtensor.set_weights`, `subtensor.metagraph`,
`time.sleep`). -/
def EpochInput : Type := List ProvEnv × Option PyErr

/-- One iteration of the main `while True` loop (validator.py
lines 171-305): run the audit round, then (modelled at a single point)
any exception from the external calls, then on the 1000-step cadence
compute `normalize(scores, p=1.0)` for submission and advance `step`.
Exceptions go through `exceptClauses`; the state mutated so far persists
when the loop continues after a caught exception, and `step` is not
advanced in that case (line 291 sits inside the `try`). -/
def epochStep (hashFn : String → String) (self : String)
    (envs : List ProvEnv) (external : Option PyErr)
    (st : LoopState) : LoopOutcome :=
  let r := auditRound hashFn self envs st.allocs
  let st1 : LoopState := { st with allocs := r.1 }
  match r.2 with
  | some e => exceptClauses st1 e
  | none =>
    match external with
    | some e => exceptClauses st1 e
    | none =>
      let sub := if submitsAt st.step then some (normalizeL1 st.scores) else none
      .continueLoop { st1 with step := st.step + 1 } sub

/-- Run the main loop over a list of epoch inputs, collecting every weight
vector submitted to the chain; stops when the process exits or crashes. -/
def runEpochs (hashFn : String → String) (self : String) :
    List EpochInput → LoopState → LoopState × List (List ℚ)
  | [], st => (st, [])
  | i :: is, st =>
    match epochStep hashFn self i.1 i.2 st with
    | .continueLoop st1 sub =>
      let r := runEpochs hashFn self is st1
      (r.1, sub.toList ++ r.2)
    | _ => (st, [])

/-- A Match verdict never shrinks the working estimate: `c ≤ ⌊11c/10⌋`. -/
theorem le_matchNext (c : Nat) : c ≤ matchNext c := by
  have h1 : c * 10 / 10 = c := Nat.mul_div_cancel c (by norm_num)
  have h2 : c * 10 / 10 ≤ c * 11 / 10 := Nat.div_le_div_right (by omega)
  unfold matchNext
  omega

/-- The failure update never goes below `MIN_N_CHUNKS`. -/
theorem min_le_failNext (c : Nat) : MIN_N_CHUNKS ≤ failNext c :=
  le_max_right _ _

/-- The failure update never grows the working estimate, as long as it was
at least `MIN_N_CHUNKS`. -/
theorem failNext_le_self (c : Nat) (hc : MIN_N_CHUNKS ≤ c) : failNext c ≤ c := by
  have h1 : c * 9 / 10 ≤ c * 10 / 10 := Nat.div_le_div_right (by omega)
  have h2 : c * 10 / 10 = c := Nat.mul_div_cancel c (by norm_num)
  unfold failNext
  omega

/-- The Match branch preserves the allocation invariant. -/
theorem matchUpdate_inv (na va : Alloc) (h : allocInv (na, va)) :
    allocInv (matchUpdate na va) :=
  ⟨le_matchNext na.n_chunks, le_trans h.2 (le_matchNext na.n_chunks)⟩

/-- The failure branch establishes the allocation invariant outright. -/
theorem failUpdate_inv (na va : Alloc) : allocInv (failUpdate na va) :=
  ⟨min_le_left _ _, min_le_failNext na.n_chunks⟩

/-- A per-provider audit step that returns normally preserves the
allocation invariant. -/
theorem auditStep_ok_inv (hashFn : String → String) (self : String)
    (env : ProvEnv) (p q : Alloc × Alloc) (lg : List LogEvent)
    (h : auditStep hashFn self env p = .ok (q, lg)) (hp : allocInv p) :
    allocInv q := by
  unfold auditStep at h
  split at h
  · simp only [Except.ok.injEq, Prod.mk.injEq] at h
    exact h.1 ▸ hp
  · split at h
    · exact absurd h (by simp)
    · split at h
      · exact absurd h (by simp)
      · simp only [Except.ok.injEq, Prod.mk.injEq] at h
        exact h.1 ▸ hp
      · split at h
        · simp only [Except.ok.injEq, Prod.mk.injEq] at h
          exact h.1 ▸ failUpdate_inv p.1 p.2
        · split at h
          · simp only [Except.ok.injEq, Prod.mk.injEq] at h
            exact h.1 ▸ matchUpdate_inv p.1 p.2 hp
          · simp only [Except.ok.injEq, Prod.mk.injEq] at h
            exact h.1 ▸ failUpdate_inv p.1 p.2

/-- A whole audit round preserves the allocation invariant for every
provider, whether or not the round aborted with an exception. -/
theorem auditRound_inv (hashFn : String → String) (self : String) :
    ∀ (envs : List ProvEnv) (ps : List (Alloc × Alloc)),
      (∀ p ∈ ps, allocInv p) →
      ∀ p ∈ (auditRound hashFn self envs ps).1, allocInv p := by
  intro envs
  induction envs with
  | nil =>
    intro ps hps p hp
    cases ps with
    | nil => simp [auditRound] at hp
    | cons a as =>
      simp only [auditRound] at hp
      exact hps p hp
  | cons e es ih =>
    intro ps hps p hp
    cases ps with
    | nil => simp [auditRound] at hp
    | cons a as =>
      simp only [auditRound] at hp
      cases hstep : auditStep hashFn self e a with
      | error err =>
        rw [hstep] at hp
        exact hps p hp
      | ok r =>
        obtain ⟨p1, lg⟩ := r
        rw [hstep] at hp
        simp only [List.mem_cons] at hp
        rcases hp with rfl | hp
        · exact auditStep_ok_inv hashFn self e a p lg hstep
            (hps a (List.mem_cons_self a as))
        · exact ih as (fun q hq => hps q (List.mem_cons_of_mem a hq)) p hp

/-- Claim C1, counterexample: at startup the floor ("verified") allocation
is created with `n_chunks = 0` (validator.py line 152), which is strictly
below `MIN_N_CHUNKS`, so the claimed invariant "both chunk_counts are
greater than or equal to MIN_CHUNKS, including the initial state" fails at
the initial state. -/
theorem initial_floor_allocation_below_min :
    (initVerifiedAlloc "/root/db" "wallet" "hotkey" "validatorAddr" "minerHot").n_chunks = 0 ∧
    ¬ MIN_N_CHUNKS ≤
      (initVerifiedAlloc "/root/db" "wallet" "hotkey" "validatorAddr" "minerHot").n_chunks :=
  ⟨rfl, by decide⟩

/-- Claim C1, amended: for every provider, initially and after every audit
round, the floor (verified) chunk count is at most the working (next)
chunk count, and the working chunk count is at least `MIN_N_CHUNKS`; the
floor, however, is initialized to `0` and is only bounded below by `0`,
not by `MIN_N_CHUNKS`. -/
theorem allocation_invariant_holds (hashFn : String → String) (self : String)
    (envs : List ProvEnv) (ps : List (Alloc × Alloc))
    (hps : ∀ p ∈ ps, allocInv p)
    (dbRoot wname whotkey selfAddr hotkey : String) :
    allocInv (initNextAlloc dbRoot wname whotkey selfAddr hotkey,
              initVerifiedAlloc dbRoot wname whotkey selfAddr hotkey) ∧
    ∀ p ∈ (auditRound hashFn self envs ps).1, allocInv p := by
  constructor
  · constructor
    · show (initVerifiedAlloc dbRoot wname whotkey selfAddr hotkey).n_chunks ≤ _
      exact Nat.zero_le _
    · exact le_refl _
  · exact auditRound_inv hashFn self envs ps hps

/-- Claim C1, witness: the amended invariant evaluated on a concrete
freshly initialized provider. -/
theorem allocation_invariant_holds_witness :
    allocInv (initNextAlloc "r" "w" "h" "v" "m", initVerifiedAlloc "r" "w" "h" "v" "m") :=
  (allocation_invariant_holds (fun s => s) "selfAddr" [] []
    (by intro p hp; exact absurd hp (List.not_mem_nil p)) "r" "w" "h" "v" "m").1

/-- Claim C2: on a Match verdict with pre-update working count
`c ≥ MIN_N_CHUNKS`, the new working count is `max MIN_N_CHUNKS ⌊1.1 c⌋`
and the new floor count is the pre-update `c` (validator.py lines
232-243).  The spec leaves the rounding rule of `round(1.1c)` to the
implementation (§8); the source fixes it to truncation toward zero via
`int()`, embedded as `c * 11 / 10`.  The source applies no `MIN_N_CHUNKS`
clamp on this branch, but under `MIN_N_CHUNKS ≤ c` the clamp is a no-op,
so the claimed `max` form is exact. -/
theorem match_verdict_update (hashFn : String → String) (self vh d : String)
    (na va : Alloc) (hm : ¬ na.miner = self) (hc : MIN_N_CHUNKS ≤ na.n_chunks)
    (hh : hashFn d = vh) :
    auditStep hashFn self ⟨.found vh, some d⟩ (na, va) =
      .ok (({ na with n_chunks := max MIN_N_CHUNKS (na.n_chunks * 11 / 10) },
            { va with n_chunks := na.n_chunks }), [.matchIncrease]) := by
  have hc0 : ¬ na.n_chunks = 0 := by
    have h1 : (0:Nat) < MIN_N_CHUNKS := by decide
    omega
  have hmax : max MIN_N_CHUNKS (na.n_chunks * 11 / 10) = na.n_chunks * 11 / 10 :=
    max_eq_right (le_trans hc (le_matchNext na.n_chunks))
  simp only [auditStep, matchUpdate, matchNext]
  rw [if_neg hm, if_neg hc0, if_pos hh, hmax]

/-- Claim C2, witness: a Match verdict at working count 1024 yields
working 1126 and floor 1024. -/
theorem match_verdict_update_witness :
    auditStep (fun _ => "vh") "selfAddr" ⟨.found "vh", some "data"⟩
      (⟨"p", 1024, "s", "minerA", "valA", true⟩,
       ⟨"p", 0, "s", "minerA", "valA", true⟩) =
      .ok ((⟨"p", max MIN_N_CHUNKS (1024 * 11 / 10), "s", "minerA", "valA", true⟩,
            ⟨"p", 1024, "s", "minerA", "valA", true⟩), [.matchIncrease]) :=
  match_verdict_update (fun _ => "vh") "selfAddr" "vh" "data"
    ⟨"p", 1024, "s", "minerA", "valA", true⟩ ⟨"p", 0, "s", "minerA", "valA", true⟩
    (by decide) (by decide) rfl

/-- Claim C3: on a NoResponse verdict (miner returned `None`, lines
210-219) and on a Mismatch verdict (hash comparison failed, lines
244-253) the state update is the identical `failUpdate`: the new working
count is `max MIN_N_CHUNKS ⌊0.9 c⌋` (truncation toward zero, the rounding
rule the source fixes for the spec's `round`) and the new floor count is
`min working' floor`. -/
theorem failure_verdict_update (hashFn : String → String) (self vh d : String)
    (na va : Alloc) (hm : ¬ na.miner = self) (hc : ¬ na.n_chunks = 0)
    (hh : ¬ hashFn d = vh) :
    auditStep hashFn self ⟨.found vh, none⟩ (na, va) =
      .ok (failUpdate na va, [.noResponseReduce]) ∧
    auditStep hashFn self ⟨.found vh, some d⟩ (na, va) =
      .ok (failUpdate na va, [.mismatchReduce]) ∧
    (failUpdate na va).1.n_chunks = max MIN_N_CHUNKS (na.n_chunks * 9 / 10) ∧
    (failUpdate na va).2.n_chunks = min (failUpdate na va).1.n_chunks va.n_chunks := by
  refine ⟨?_, ?_, ?_, rfl⟩
  · simp only [auditStep]
    rw [if_neg hm, if_neg hc]
  · simp only [auditStep]
    rw [if_neg hm, if_neg hc, if_neg hh]
  · show failNext na.n_chunks = max MIN_N_CHUNKS (na.n_chunks * 9 / 10)
    unfold failNext
    exact Nat.max_comm _ _

/-- Claim C3, witness: at working 1024 and floor 0, both failure branches
produce working `max MIN_N_CHUNKS 921 = 1024` and floor `min 1024 0 = 0`. -/
theorem failure_verdict_update_witness :
    auditStep (fun _ => "no") "selfAddr" ⟨.found "vh", none⟩
      (⟨"p", 1024, "s", "minerA", "valA", true⟩,
       ⟨"p", 0, "s", "minerA", "valA", true⟩) =
      .ok (failUpdate ⟨"p", 1024, "s", "minerA", "valA", true⟩
             ⟨"p", 0, "s", "minerA", "valA", true⟩, [.noResponseReduce]) ∧
    auditStep (fun _ => "no") "selfAddr" ⟨.found "vh", some "data"⟩
      (⟨"p", 1024, "s", "minerA", "valA", true⟩,
       ⟨"p", 0, "s", "minerA", "valA", true⟩) =
      .ok (failUpdate ⟨"p", 1024, "s", "minerA", "valA", true⟩
             ⟨"p", 0, "s", "minerA", "valA", true⟩, [.mismatchReduce]) := by
  have h := failure_verdict_update (fun _ => "no") "selfAddr" "vh" "data"
    ⟨"p", 1024, "s", "minerA", "valA", true⟩ ⟨"p", 0, "s", "minerA", "valA", true⟩
    (by decide) (by decide) (by decide)
  exact ⟨h.1, h.2.1⟩

/-- Claim C4: a provider whose miner hotkey equals the validator's own
address is skipped (`continue`, validator.py lines 177-178): the audit
step returns both allocation records completely unchanged and performs no
other effect. -/
theorem self_audit_unchanged (hashFn : String → String) (self : String)
    (env : ProvEnv) (na va : Alloc) (hm : na.miner = self) :
    auditStep hashFn self env (na, va) = .ok ((na, va), []) := by
  simp only [auditStep]
  rw [if_pos hm]

/-- Claim C4, witness: a concrete self-audit leaves the records intact. -/
theorem self_audit_unchanged_witness :
    auditStep (fun _ => "") "valA" ⟨.found "x", some "y"⟩
      (⟨"p", 2048, "s", "valA", "valA", true⟩,
       ⟨"p", 1024, "s", "valA", "valA", true⟩) =
      .ok ((⟨"p", 2048, "s", "valA", "valA", true⟩,
            ⟨"p", 1024, "s", "valA", "valA", true⟩), []) :=
  self_audit_unchanged (fun _ => "") "valA" ⟨.found "x", some "y"⟩
    ⟨"p", 2048, "s", "valA", "valA", true⟩ ⟨"p", 1024, "s", "valA", "valA", true⟩ rfl

/-- Claim C5: starting from `c ≥ MIN_N_CHUNKS`, iterating the Match
working-count update is monotonically non-decreasing, and iterating the
failure working-count update is monotonically non-increasing and never
drops below `MIN_N_CHUNKS`. -/
theorem repeated_verdict_monotone (c N : Nat) (hc : MIN_N_CHUNKS ≤ c)
    (hN : 1 ≤ N) :
    (∀ k, k < N → matchNext^[k] c ≤ matchNext^[k + 1] c) ∧
    (∀ k, k < N → failNext^[k + 1] c ≤ failNext^[k] c) ∧
    (∀ k, k ≤ N → MIN_N_CHUNKS ≤ failNext^[k] c) := by
  have hmin : ∀ k, MIN_N_CHUNKS ≤ failNext^[k] c := by
    intro k
    cases k with
    | zero => exact hc
    | succ m =>
      rw [Function.iterate_succ_apply']
      exact min_le_failNext _
  refine ⟨?_, ?_, fun k _ => hmin k⟩
  · intro k _
    rw [Function.iterate_succ_apply']
    exact le_matchNext _
  · intro k _
    rw [Function.iterate_succ_apply']
    exact failNext_le_self _ (hmin k)

/-- Claim C5, witness: one Match step from 1024 does not decrease, one
failure step from 1024 does not increase and stays at `MIN_N_CHUNKS`. -/
theorem repeated_verdict_monotone_witness :
    matchNext^[0] 1024 ≤ matchNext^[0 + 1] 1024 ∧
    failNext^[0 + 1] 1024 ≤ failNext^[0] 1024 ∧
    MIN_N_CHUNKS ≤ failNext^[1] 1024 :=
  ⟨(repeated_verdict_monotone 1024 1 (by decide) (by decide)).1 0 (by decide),
   (repeated_verdict_monotone 1024 1 (by decide) (by decide)).2.1 0 (by decide),
   (repeated_verdict_monotone 1024 1 (by decide) (by decide)).2.2 1 (by decide)⟩

/-- Claim C6 (code bug): a store-lookup failure is not always skipped
fail-soft.  A failure raised inside the `try` (missing row, corrupted
table) is caught by the bare `except:` and the provider is skipped with
both records unchanged and the error logged (third conjunct).  But
`sqlite3.connect(alloc["path"])` at validator.py line 186 precedes the
`try`, so a connect-time failure — unreachable storage, a mode the claim
explicitly covers — raises `sqlite3.OperationalError` (first conjunct),
which neither the bare `except:` nor the loop's `except RuntimeError` /
`except KeyboardInterrupt` handlers catch, so it terminates the process
(second conjunct) instead of skipping the provider. -/
theorem store_connect_error_fatal :
    auditStep (fun _ => "") "selfAddr" ⟨.connectError, some "data"⟩
      (⟨"p", 4096, "s", "minerA", "valA", true⟩,
       ⟨"p", 1024, "s", "minerA", "valA", true⟩) =
      .error .operationalError ∧
    exceptClauses ⟨0, [], []⟩ .operationalError = .crash .operationalError ∧
    auditStep (fun _ => "") "selfAddr" ⟨.caughtError, some "data"⟩
      (⟨"p", 4096, "s", "minerA", "valA", true⟩,
       ⟨"p", 1024, "s", "minerA", "valA", true⟩) =
      .ok ((⟨"p", 4096, "s", "minerA", "valA", true⟩,
            ⟨"p", 1024, "s", "minerA", "valA", true⟩), [.storeError]) := by
  exact ⟨rfl, rfl, rfl⟩

/-- Summing a list divided pointwise by a constant divides the sum. -/
theorem sum_map_div (v : List ℚ) (d : ℚ) :
    (v.map (fun x => x / d)).sum = v.sum / d := by
  induction v with
  | nil => simp
  | cons a as ih => simp [ih, add_div]

/-- On a vector of non-negative entries, the L1 norm is just the sum. -/
theorem l1norm_eq_sum (v : List ℚ) :
    (∀ x ∈ v, 0 ≤ x) → l1norm v = v.sum := by
  induction v with
  | nil => intro _; simp [l1norm]
  | cons a as ih =>
    intro hv
    simp only [l1norm, List.map_cons, List.sum_cons] at *
    rw [abs_of_nonneg (hv a (List.mem_cons_self a as)),
      ih (fun x hx => hv x (List.mem_cons_of_mem a hx))]

/-- The torch normalize epsilon is positive. -/
theorem torchEps_pos : (0:ℚ) < torchEps := by norm_num [torchEps]

/-- Claim C7: for a non-degenerate score vector — all entries non-negative
(the program's scores are all ones, see `initScores`) and L1 norm at
least torch's `eps` — the computed weight vector is the L1 normalization:
all entries non-negative, summing exactly to 1 (the embedding over `ℚ` is
exact, so the float epsilon slack is not needed); and submission happens
exactly at the `(step + 1) % 1000 == 0` cadence, not every epoch. -/
theorem weight_vector_l1_normalized (v : List ℚ) (hv : ∀ x ∈ v, 0 ≤ x)
    (hnd : torchEps ≤ l1norm v) :
    (∀ w ∈ normalizeL1 v, 0 ≤ w) ∧ (normalizeL1 v).sum = 1 ∧
    (∀ s, submitsAt s = true ↔ (s + 1) % 1000 = 0) ∧ submitsAt 0 = false := by
  have hpos : 0 < l1norm v := lt_of_lt_of_le torchEps_pos hnd
  have hmax : max (l1norm v) torchEps = l1norm v := max_eq_left hnd
  refine ⟨?_, ?_, ?_, by decide⟩
  · intro w hw
    unfold normalizeL1 at hw
    rw [hmax] at hw
    obtain ⟨x, hx, rfl⟩ := List.mem_map.mp hw
    exact div_nonneg (hv x hx) (le_of_lt hpos)
  · unfold normalizeL1
    rw [hmax, sum_map_div, ← l1norm_eq_sum v hv]
    exact div_self (ne_of_gt hpos)
  · intro s
    simp [submitsAt]

/-- Claim C7, witness: the two-provider all-ones score vector normalizes
to non-negative weights summing to 1, and epoch 0 does not submit. -/
theorem weight_vector_l1_normalized_witness :
    (0:ℚ) ≤ 1 / 2 ∧ (normalizeL1 [1, 1]).sum = 1 ∧ submitsAt 0 = false := by
  have h2 : l1norm [1, 1] = 2 := by simp [l1norm]; norm_num
  have hv : ∀ x ∈ ([1, 1] : List ℚ), 0 ≤ x := by
    intro x hx
    simp at hx
    rw [hx]
    norm_num
  have hnd : torchEps ≤ l1norm [1, 1] := by rw [h2, torchEps]; norm_num
  have h := weight_vector_l1_normalized [1, 1] hv hnd
  have hmem : (1 / 2 : ℚ) ∈ normalizeL1 [1, 1] := by
    have hm : max (l1norm [1, 1]) torchEps = 2 := by
      rw [h2, torchEps]
      rw [max_eq_left (by norm_num)]
    simp [normalizeL1, hm]
  exact ⟨h.1 (1 / 2) hmem, h.2.1, h.2.2.2⟩

/-- Claim C8 (code bug): a provider whose working `n_chunks` is 0 is not
skipped fail-soft.  `random.randint(1, 0)` (validator.py line 182) raises
`ValueError` before any branch could skip the provider, and the loop's
only handlers (`except RuntimeError`, `except KeyboardInterrupt`, lines
297-305) do not catch `ValueError`, so the error is process-fatal, not a
skip. -/
theorem zero_chunk_count_fatal :
    auditStep (fun _ => "") "selfAddr" ⟨.found "vh", some "data"⟩
      (⟨"p", 0, "s", "minerA", "valA", true⟩,
       ⟨"p", 0, "s", "minerA", "valA", true⟩) = .error .valueError ∧
    exceptClauses ⟨0, [], []⟩ .valueError = .crash .valueError := by
  exact ⟨rfl, rfl⟩

/-- Claim C9 (code bug): the round boundary catches only `RuntimeError`
(log and continue) and `KeyboardInterrupt` (clean exit); any other
exception raised inside the round body — here a `ValueError` — has no
handler and terminates the process, contradicting "any uncaught exception
... is caught at the round boundary". -/
theorem except_clause_coverage :
    epochStep (fun _ => "") "valA" [] (some .runtimeError) ⟨5, [1], []⟩ =
      .continueLoop ⟨5, [1], []⟩ none ∧
    epochStep (fun _ => "") "valA" [] (some .keyboardInterrupt) ⟨5, [1], []⟩ =
      .exitClean ∧
    epochStep (fun _ => "") "valA" [] (some .valueError) ⟨5, [1], []⟩ =
      .crash .valueError := by
  exact ⟨rfl, rfl, rfl⟩

/-- If the exception dispatch lets the loop continue, the state is the one
mutated so far and nothing was submitted. -/
theorem exceptClauses_continue (st0 st1 : LoopState) (e : PyErr)
    (sub : Option (List ℚ))
    (h : exceptClauses st0 e = .continueLoop st1 sub) :
    st1 = st0 ∧ sub = none := by
  unfold exceptClauses at h
  split at h
  · simp only [LoopOutcome.continueLoop.injEq] at h
    exact ⟨h.1.symm, h.2.symm⟩
  · exact absurd h (by simp)
  · exact absurd h (by simp)

/-- Whenever one loop iteration continues, the score vector is untouched
and anything submitted is the L1 normalization of the current scores. -/
theorem epochStep_scores (hashFn : String → String) (self : String)
    (envs : List ProvEnv) (external : Option PyErr) (st st1 : LoopState)
    (sub : Option (List ℚ))
    (h : epochStep hashFn self envs external st = .continueLoop st1 sub) :
    st1.scores = st.scores ∧ ∀ w, sub = some w → w = normalizeL1 st.scores := by
  simp only [epochStep] at h
  split at h
  · obtain ⟨h1, h2⟩ := exceptClauses_continue _ _ _ _ h
    subst h1
    refine ⟨rfl, ?_⟩
    intro w hw
    rw [h2] at hw
    exact absurd hw (by simp)
  · split at h
    · obtain ⟨h1, h2⟩ := exceptClauses_continue _ _ _ _ h
      subst h1
      refine ⟨rfl, ?_⟩
      intro w hw
      rw [h2] at hw
      exact absurd hw (by simp)
    · simp only [LoopOutcome.continueLoop.injEq] at h
      obtain ⟨h1, h2⟩ := h
      subst h1
      refine ⟨rfl, ?_⟩
      intro w hw
      rw [← h2] at hw
      by_cases hs : submitsAt st.step
      · rw [if_pos hs] at hw
        exact (Option.some.inj hw).symm
      · rw [if_neg hs] at hw
        exact absurd hw (by simp)

/-- Over any run of the main loop, the score vector is never mutated and
every submitted weight vector is the L1 normalization of the starting
scores. -/
theorem runEpochs_scores (hashFn : String → String) (self : String) :
    ∀ (inputs : List EpochInput) (st : LoopState),
      (runEpochs hashFn self inputs st).1.scores = st.scores ∧
      ∀ w ∈ (runEpochs hashFn self inputs st).2, w = normalizeL1 st.scores := by
  intro inputs
  induction inputs with
  | nil =>
    intro st
    exact ⟨rfl, by intro w hw; exact absurd hw (List.not_mem_nil w)⟩
  | cons i is ih =>
    intro st
    simp only [runEpochs]
    cases hstep : epochStep hashFn self i.1 i.2 st with
    | continueLoop st1 sub =>
      obtain ⟨hsc, hsub⟩ := epochStep_scores hashFn self i.1 i.2 st st1 sub hstep
      refine ⟨?_, ?_⟩
      · show (runEpochs hashFn self is st1).1.scores = st.scores
        rw [(ih st1).1, hsc]
      · show ∀ w ∈ sub.toList ++ (runEpochs hashFn self is st1).2,
          w = normalizeL1 st.scores
        intro w hw
        rw [List.mem_append] at hw
        rcases hw with hw | hw
        · cases sub with
          | none => exact absurd hw (by simp)
          | some s =>
            have hws : w = s := by simpa using hw
            rw [hws]
            exact hsub s rfl
        · have hrec := (ih st1).2 w hw
          rw [hrec, hsc]
    | exitClean =>
      exact ⟨rfl, by intro w hw; exact absurd hw (List.not_mem_nil w)⟩
    | crash e =>
      exact ⟨rfl, by intro w hw; exact absurd hw (List.not_mem_nil w)⟩

/-- The L1 norm of the all-ones vector of length `n` is `n`. -/
theorem l1norm_replicate (n : Nat) : l1norm (List.replicate n (1:ℚ)) = n := by
  unfold l1norm
  induction n with
  | zero => simp
  | succ m ih =>
    rw [List.replicate_succ, List.map_cons, List.sum_cons, ih, abs_one]
    push_cast
    ring

/-- Normalizing the all-ones vector of length `n ≥ 1` gives the uniform
vector with entries `1 / n`. -/
theorem normalizeL1_initScores (n : Nat) (hn : 1 ≤ n) :
    normalizeL1 (initScores n) = List.replicate n (1 / (n:ℚ)) := by
  unfold normalizeL1 initScores
  rw [l1norm_replicate]
  have h1 : (1:ℚ) ≤ n := by exact_mod_cast hn
  have heps : torchEps ≤ (1:ℚ) := by rw [torchEps]; norm_num
  rw [max_eq_left (le_trans heps h1), List.map_replicate]

/-- Claim C10: the score vector is initialized to all ones (validator.py
line 129) and no operation in the main loop ever mutates it, so every
weight vector ever submitted to the chain is the uniform vector with each
entry `1 / n`, independent of all audit verdicts. -/
theorem scores_constant_uniform_weights (hashFn : String → String)
    (self : String) (inputs : List EpochInput) (n : Nat) (hn : 1 ≤ n)
    (st : LoopState) (hs : st.scores = initScores n) (w : List ℚ)
    (hw : w ∈ (runEpochs hashFn self inputs st).2) :
    w = List.replicate n (1 / (n:ℚ)) ∧
    (runEpochs hashFn self inputs st).1.scores = initScores n := by
  obtain ⟨h1, h2⟩ := runEpochs_scores hashFn self inputs st
  refine ⟨?_, by rw [h1, hs]⟩
  rw [h2 w hw, hs]
  exact normalizeL1_initScores n hn

/-- Claim C10, witness: a one-provider run at step 999 submits exactly the
uniform vector `[1]`, and the scores end unchanged. -/
theorem scores_constant_uniform_weights_witness :
    [(1:ℚ)] = List.replicate 1 (1 / ((1:Nat):ℚ)) ∧
    (runEpochs (fun _ => "") "valA" [([], none)] ⟨999, initScores 1, []⟩).1.scores =
      initScores 1 := by
  have hw : [(1:ℚ)] ∈ (runEpochs (fun _ => "") "valA" [([], none)]
      ⟨999, initScores 1, []⟩).2 := by
    have hrun : (runEpochs (fun _ => "") "valA" [([], none)]
        ⟨999, initScores 1, []⟩).2 = [normalizeL1 (initScores 1)] := rfl
    have hone : normalizeL1 (initScores 1) = [(1:ℚ)] := by
      rw [normalizeL1_initScores 1 (by norm_num)]
      norm_num
    rw [hrun, hone]
    exact List.mem_singleton.mpr rfl
  exact scores_constant_uniform_weights (fun _ => "") "valA" [([], none)] 1
    (by norm_num) ⟨999, initScores 1, []⟩ rfl [(1:ℚ)] hw
